import Mathlib

/-!
Shallow embedding of the timetable cell-to-session parser (`parser.py` of the
timetable-parser repository).  Python strings are modelled as Lean `String`
(lists of characters), Python `None` as `Option.none`, the regular
expressions `TIME_RE`, `SESSION_RE`, `SEMESTER_RE` and the inline degree /
section / combined-header patterns as deterministic character-list matchers,
and the mutable aggregation of `infer_missing_semesters` as a left fold over
the session list in document order.
-/

/-- The whitespace class of Python `str.strip` / `str.split` / regex `\s`
(ASCII fragment, which covers the parser's inputs). -/
def isWs (c : Char) : Bool :=
  c = ' ' || c = '\t' || c = '\n' || c = '\r' || c = '\x0b' || c = '\x0c'

/-- Regex `\w` (ASCII fragment): letters, digits and underscore. -/
def isWordChar (c : Char) : Bool := c.isAlphanum || c = '_'

/-- Python `str.strip` on a character list. -/
def pyStripL (l : List Char) : List Char :=
  ((l.dropWhile isWs).reverse.dropWhile isWs).reverse

/-- Python `str.lower` (ASCII fragment). -/
def llower (l : List Char) : List Char := l.map Char.toLower

/-- Test that `l` starts with `pat` (Python `str.startswith`). -/
def lstarts : List Char → List Char → Bool
  | [], _ => true
  | _ :: _, [] => false
  | p :: ps, c :: cs => p = c && lstarts ps cs

/-- Python substring containment: `needle in hay`. -/
def lcontains (needle : List Char) : List Char → Bool
  | [] => needle.isEmpty
  | c :: cs => lstarts needle (c :: cs) || lcontains needle cs

/-- Python `str.endswith`. -/
def lEndsWith (pat l : List Char) : Bool := lstarts pat.reverse l.reverse

/-- Case-insensitive `startswith` (regex `re.IGNORECASE` literal match). -/
def ciStarts : List Char → List Char → Bool
  | [], _ => true
  | _ :: _, [] => false
  | p :: ps, c :: cs => p.toLower = c.toLower && ciStarts ps cs

/-- Python `str.split(sep)` for a one-character separator. -/
def splitOnChar (sep : Char) : List Char → List (List Char)
  | [] => [[]]
  | c :: rest =>
    let r := splitOnChar sep rest
    if c = sep then [] :: r
    else
      match r with
      | h :: t => (c :: h) :: t
      | [] => [[c]]

/-- Python `str.rsplit(c, 1)`: split at the last occurrence of `c`,
returning the pieces to its left and right (or `none` if absent). -/
def rsplitLastChar (sep : Char) : List Char → Option (List Char × List Char)
  | [] => none
  | c :: rest =>
    match rsplitLastChar sep rest with
    | some (a, b) => some (c :: a, b)
    | none => if c = sep then some ([], rest) else none

/-- The whitespace-separated tokens of Python `str.split()` (no argument). -/
def tokensAux (cur : List Char) : List Char → List (List Char)
  | [] => if cur.isEmpty then [] else [cur.reverse]
  | c :: rest =>
    if isWs c then
      if cur.isEmpty then tokensAux [] rest else cur.reverse :: tokensAux [] rest
    else tokensAux (c :: cur) rest

def wsTokens (l : List Char) : List (List Char) := tokensAux [] l

/-- Join tokens with single spaces, as `" ".join(tokens)`. -/
def joinSep : List (List Char) → List Char
  | [] => []
  | [t] => t
  | t :: rest => t ++ ' ' :: joinSep rest

/-- The `normalize_spacing` helper of parser.py: `" ".join(value.split())`. -/
def normSpacing (l : List Char) : List Char := joinSep (wsTokens l)

def normalize_spacing (s : String) : String := String.mk (normSpacing s.data)

/-- Python `str.replace(" ", "")`. -/
def removeSpaces (l : List Char) : List Char := l.filter (fun c => c ≠ ' ')

/-- Python `str.replace(c, " " ++ c ++ " ")`, used to pad parentheses. -/
def padChar (c : Char) (l : List Char) : List Char :=
  l.foldr (fun x acc => if x = c then ' ' :: x :: ' ' :: acc else x :: acc) []

/-- Decimal value of a digit run (Python `int` on a `\d+` capture). -/
def natOfDigits (l : List Char) : Nat :=
  l.foldl (fun n c => 10 * n + (c.toNat - 48)) 0

/-- The pattern `TIME_RE = \((\d{2}:\d{2})\s*-\s*(\d{2}:\d{2})\)` tried at the
current position; returns the two capture groups. -/
def matchTimeAt : List Char → Option (List Char × List Char)
  | '(' :: h1 :: h2 :: c1 :: m1 :: m2 :: rest =>
    if h1.isDigit && h2.isDigit && c1 = ':' && m1.isDigit && m2.isDigit then
      match rest.dropWhile isWs with
      | '-' :: rest2 =>
        match rest2.dropWhile isWs with
        | h3 :: h4 :: c2 :: m3 :: m4 :: ')' :: _ =>
          if h3.isDigit && h4.isDigit && c2 = ':' && m3.isDigit && m4.isDigit then
            some ([h1, h2, ':', m1, m2], [h3, h4, ':', m3, m4])
          else none
        | _ => none
      | _ => none
    else none
  | _ => none

/-- Leftmost `TIME_RE` match, as `TIME_RE.search`. -/
def timeSearch : List Char → Option (List Char × List Char)
  | [] => none
  | c :: rest =>
    match matchTimeAt (c :: rest) with
    | some g => some g
    | none => timeSearch rest

/-- The pattern `SESSION_RE = \b(\d{4})\s*-\s*(\d{4})\b` tried at the current
position (`prevWord` records whether the preceding character is a word
character, for the leading `\b`); returns the whole match (group 0). -/
def matchSessionAt (prevWord : Bool) : List Char → Option (List Char)
  | a :: b :: c :: d :: rest =>
    if prevWord then none
    else if a.isDigit && b.isDigit && c.isDigit && d.isDigit then
      let ws1 := rest.takeWhile isWs
      match rest.dropWhile isWs with
      | '-' :: rest2 =>
        let ws2 := rest2.takeWhile isWs
        match rest2.dropWhile isWs with
        | e :: f :: g :: h :: rest4 =>
          if e.isDigit && f.isDigit && g.isDigit && h.isDigit
              && !(match rest4 with | x :: _ => isWordChar x | [] => false) then
            some ([a, b, c, d] ++ ws1 ++ '-' :: ws2 ++ [e, f, g, h])
          else none
        | _ => none
      | _ => none
    else none
  | _ => none

def sessionSearchAux : Bool → List Char → Option (List Char)
  | _, [] => none
  | pw, c :: rest =>
    match matchSessionAt pw (c :: rest) with
    | some g => some g
    | none => sessionSearchAux (isWordChar c) rest

/-- Leftmost `SESSION_RE` match, returning group 0. -/
def sessionSearch (l : List Char) : Option (List Char) := sessionSearchAux false l

/-- The pattern `SEMESTER_RE = Semester#\s*(\d+)` tried at the current
position; returns (group 0, integer value of group 1). -/
def matchSemesterAt (l : List Char) : Option (List Char × Nat) :=
  if lstarts "Semester#".data l then
    let rest := l.drop 9
    let ws := rest.takeWhile isWs
    let ds := (rest.dropWhile isWs).takeWhile Char.isDigit
    if ds.isEmpty then none
    else some ("Semester#".data ++ ws ++ ds, natOfDigits ds)
  else none

/-- Leftmost `SEMESTER_RE` match. -/
def semesterSearch : List Char → Option (List Char × Nat)
  | [] => none
  | c :: rest =>
    match matchSemesterAt (c :: rest) with
    | some r => some r
    | none => semesterSearch rest

/-- The `ParsedSession` dataclass of parser.py.  The Python field `section`
is named `section_` here because `section` is a Lean keyword. -/
structure ParsedSession where
  combined_class : Option String
  course_title : Option String
  course_code : Option String
  course_truncated : Bool
  program_line : Option String
  program_truncated : Bool
  degree : Option String
  program : Option String
  section_ : Option String
  session : Option String
  semester : Option Nat
  teacher_name : Option String
  teacher_truncated : Bool
  start_time : Option String
  end_time : Option String
  practical : Bool
  raw_lines : List String
deriving DecidableEq, Repr

def DAY_NAMES : List String :=
  ["Monday", "Tuesday", "Wednesday", "Thursday", "Friday", "Saturday", "Sunday"]

/-- The `normalize_day` classifier: the first canonical day name whose lowercase text is a
prefix of the stripped lowercase value. -/
def normalize_day (value : String) : Option String :=
  DAY_NAMES.find? (fun d => lstarts (llower d.data) (llower (pyStripL value.data)))

/-- Truncation test `has_ellipsis`: false on `None`/empty; else the text contains the
ellipsis character or ends with a literal `"..."`. -/
def has_ellipsis (text : Option String) : Bool :=
  match text with
  | none => false
  | some s =>
    if s.data.isEmpty then false
    else lcontains "…".data s.data || lEndsWith "...".data s.data

/-- Course splitting `split_course_line`: split on the last `#` into stripped title and code
(each `or None`); a line with no `#` is all title (stripped, not `or None`). -/
def split_course_line (cl : Option String) : Option String × Option String :=
  match cl with
  | none => (none, none)
  | some s =>
    if s.data.isEmpty then (none, none)
    else
      match rsplitLastChar '#' s.data with
      | none => (some (String.mk (pyStripL s.data)), none)
      | some (left, right) =>
        let lt := pyStripL left
        let rc := pyStripL right
        ((if lt.isEmpty then none else some (String.mk lt)),
         (if rc.isEmpty then none else some (String.mk rc)))

/-- Header test `is_combined_header`: stripped lowercase text starts with
`"combined class"`, or matches `^combined\s*\(\d+\)`. -/
def is_combined_header (v : String) : Bool :=
  let text := llower (pyStripL v.data)
  lstarts "combined class".data text ||
    (lstarts "combined".data text &&
      (match (text.drop 8).dropWhile isWs with
       | '(' :: r2 =>
         let ds := r2.takeWhile Char.isDigit
         !ds.isEmpty && (match r2.drop ds.length with | ')' :: _ => true | _ => false)
       | _ => false))

/-- First pass of `resolve_program_line`: skip candidates missing the
session token or (space-compacted) semester token, return the first whose
text starts with the (nonempty) ellipsis-stripped prefix. -/
def resolveLoop1 (pfx : List Char) (sv smv : Option (List Char)) :
    List String → Option String
  | [] => none
  | c :: rest =>
    if (match sv with | some s => !lcontains s c.data | none => false) then
      resolveLoop1 pfx sv smv rest
    else if (match smv with
             | some m => !lcontains m (removeSpaces c.data)
             | none => false) then
      resolveLoop1 pfx sv smv rest
    else if !pfx.isEmpty && lstarts pfx c.data then some c
    else resolveLoop1 pfx sv smv rest

/-- Second pass of `resolve_program_line`: first candidate containing the
session token (and the compacted semester token when present). -/
def resolveLoop2 (sv smv : Option (List Char)) : List String → Option String
  | [] => none
  | c :: rest =>
    match sv with
    | some s =>
      if lcontains s c.data &&
          (match smv with | none => true | some m => lcontains m (removeSpaces c.data)) then
        some c
      else resolveLoop2 sv smv rest
    | none => resolveLoop2 sv smv rest

/-- The resolver prefix `program_line.replace("…", "").strip()`. -/
def truncStem (pl : String) : List Char :=
  pyStripL (pl.data.filter (fun c => c ≠ '…'))

/-- The `session_value` constraint: group 0 of the session search on the line. -/
def svOf (pl : String) : Option (List Char) := sessionSearch pl.data

/-- The `semester_value` constraint: group 0 of the semester search, spaces removed. -/
def smvOf (pl : String) : Option (List Char) :=
  (semesterSearch pl.data).map (fun r => removeSpaces r.1)

/-- The `resolve_program_line` function of parser.py. -/
def resolve_program_line (pl : String) (refs : List String) : String :=
  match resolveLoop1 (truncStem pl) (svOf pl) (smvOf pl) refs with
  | some c => c
  | none =>
    match resolveLoop2 (svOf pl) (smvOf pl) refs with
    | some c => c
    | none => pl

/-- The first candidate of the pool satisfying `p` (pool order wins). -/
def firstMatch (p : String → Bool) : List String → Option String
  | [] => none
  | c :: rest => if p c then some c else firstMatch p rest

/-- The normalized line of `parse_program_fields`:
`" ".join(line.replace("(", " ( ").replace(")", " ) ").split())`. -/
def programClean (s : String) : List Char :=
  normSpacing (padChar ')' (padChar '(' s.data))

/-- The degree match `re.match(r"^(BS|MS|PhD)\s+(?:in\s+)?", cleaned, re.IGNORECASE)`:
returns (group 1 as it appears in the line, match end position). -/
def degreeMatchL (l : List Char) : Option (List Char × Nat) :=
  match (if ciStarts "BS".data l then some 2
         else if ciStarts "MS".data l then some 2
         else if ciStarts "PhD".data l then some 3
         else none) with
  | none => none
  | some n =>
    let rest := l.drop n
    let w1 := rest.takeWhile isWs
    if w1.isEmpty then none
    else
      let rest2 := rest.drop w1.length
      let inExtra :=
        if ciStarts "in".data rest2 then
          let w2 := (rest2.drop 2).takeWhile isWs
          if w2.isEmpty then 0 else 2 + w2.length
        else 0
      some (l.take n, n + w1.length + inExtra)

/-- The section pattern `(Regular|Self Support)\s*\d+` (IGNORECASE) tried at the current
position; returns group 0. -/
def matchSectionKw (l : List Char) (kw : List Char) : Option (List Char) :=
  if ciStarts kw l then
    let rest := l.drop kw.length
    let ws := rest.takeWhile isWs
    let ds := (rest.drop ws.length).takeWhile Char.isDigit
    if ds.isEmpty then none else some (l.take kw.length ++ ws ++ ds)
  else none

def matchSectionAt (l : List Char) : Option (List Char) :=
  match matchSectionKw l "Regular".data with
  | some g => some g
  | none => matchSectionKw l "Self Support".data

/-- Search of the section pattern; returns (text before the match,
group 0). -/
def sectionSearchAux (acc : List Char) : List Char → Option (List Char × List Char)
  | [] => none
  | c :: rest =>
    match matchSectionAt (c :: rest) with
    | some g => some (acc.reverse, g)
    | none => sectionSearchAux (c :: acc) rest

def sectionSearch (l : List Char) : Option (List Char × List Char) :=
  sectionSearchAux [] l

/-- The `parse_program_fields` function of parser.py: returns
(degree, program, section, session, semester). -/
def parse_program_fields (pl : Option String) :
    Option String × Option String × Option String × Option String × Option Nat :=
  match pl with
  | none => (none, none, none, none, none)
  | some s =>
    if s.data.isEmpty then (none, none, none, none, none)
    else
      let cleaned := programClean s
      match degreeMatchL cleaned with
      | none => (none, none, none, none, none)
      | some (deg, endPos) =>
        let remainder := cleaned.drop endPos
        let ps :=
          match sectionSearch remainder with
          | some (pre, g0) =>
            (let p := pyStripL pre
             ((if p.isEmpty then none else some (String.mk p)),
              some (String.mk (normSpacing g0))))
          | none => ((none : Option String), (none : Option String))
        let sess := (sessionSearch cleaned).map (fun g => String.mk (removeSpaces g))
        let sem := (semesterSearch cleaned).map (fun r => r.2)
        (some (String.mk deg), ps.1, ps.2, sess, sem)

/-- The kept lines of `parse_cell`: each line of the stripped cell text,
stripped, dropping blank lines and noise lines (`" swap"` comparison,
`was:` markers, `delete` boxes) — the predicate is on the stripped
lowercase text, exactly as in the source. -/
def keepStripped (t : List Char) : Bool :=
  !t.isEmpty && llower t ≠ " swap".data &&
    !lstarts "was:".data (llower t) && !lcontains "delete".data (llower t)

def cellLines (cell : String) : List String :=
  (((splitOnChar '\n' (pyStripL cell.data)).map pyStripL).filter keepStripped).map
    String.mk

/-- Does a line contain the `TIME_RE` pattern? -/
def hasTime (l : String) : Bool := (timeSearch l.data).isSome

/-- The grouping loop of `parse_cell`: accumulate lines (in `cur`,
reversed); a line matching `TIME_RE` closes the current group; trailing
lines form a final group. -/
def splitSessionsAux (cur : List String) : List String → List (List String)
  | [] => if cur.isEmpty then [] else [cur.reverse]
  | l :: rest =>
    if hasTime l then (l :: cur).reverse :: splitSessionsAux [] rest
    else splitSessionsAux (l :: cur) rest

def splitSessions (lines : List String) : List (List String) :=
  splitSessionsAux [] lines

/-- The cleaned lines `[line.strip() for line in raw_lines if line.strip()]`. -/
def cleanLines (raw : List String) : List String :=
  ((raw.map (fun l => pyStripL l.data)).filter (fun l => !l.isEmpty)).map String.mk

/-- Remove the last element satisfying `p` (the teacher line of
`parse_session`); returns (that element, the remaining lines in order). -/
def extractLast (p : String → Bool) : List String → Option String × List String
  | [] => (none, [])
  | l :: rest =>
    match extractLast p rest with
    | (some t, rest2) => (some t, l :: rest2)
    | (none, _) => if p l then (some l, rest) else (none, l :: rest)

def teacherSplit (raw : List String) : Option String × List String :=
  extractLast hasTime (cleanLines raw)

/-- The practical-line test `line.strip().lower() == "practical"`. -/
def isPractical (l : String) : Bool := llower (pyStripL l.data) = "practical".data

def contentLines2 (raw : List String) : List String :=
  (teacherSplit raw).2.filter (fun l => !isPractical l)

def meaningfulLines (raw : List String) : List String :=
  (contentLines2 raw).filter (fun l => !l.data.isEmpty)

/-- Header/course/program line assignment of `parse_session`:
(combined_class, course_line, program_line). -/
def lineAssign (ms : List String) : Option String × Option String × Option String :=
  match ms with
  | [] => (none, none, none)
  | m0 :: rest =>
    if is_combined_header m0 then (some m0, rest.head?, rest.tail.head?)
    else (none, some m0, rest.head?)

def courseLineOf (raw : List String) : Option String :=
  (lineAssign (meaningfulLines raw)).2.1

def programLineRaw (raw : List String) : Option String :=
  (lineAssign (meaningfulLines raw)).2.2

/-- The final `program_line` field: the resolved line when resolution is
enabled, the line is truncated and nonempty, and `keep_truncated` is off. -/
def programLineFinal (raw : List String) (refs : List String) (rt kt : Bool) :
    Option String :=
  match programLineRaw raw with
  | none => none
  | some pl =>
    if rt && has_ellipsis (some pl) && !pl.data.isEmpty && !kt then
      some (resolve_program_line pl refs)
    else some pl

/-- The `start_time`/`end_time` pair from the teacher line (both from the same
`TIME_RE.search` match, or both absent). -/
def sessionTimes (tl : Option String) : Option String × Option String :=
  match tl with
  | none => (none, none)
  | some t =>
    if t.data.isEmpty then (none, none)
    else
      match timeSearch t.data with
      | some p => (some (String.mk p.1), some (String.mk p.2))
      | none => (none, none)

/-- The teacher name `teacher_line.split("(")[0].strip() or None`. -/
def teacherNameOf (tl : Option String) : Option String :=
  match tl with
  | none => none
  | some t =>
    if t.data.isEmpty then none
    else
      let nm := pyStripL ((splitOnChar '(' t.data).headD [])
      if nm.isEmpty then none else some (String.mk nm)

/-- The `parse_session` function of parser.py. -/
def parse_session (raw : List String) (refs : List String) (rt kt : Bool) :
    ParsedSession :=
  { combined_class := (lineAssign (meaningfulLines raw)).1
  , course_title := (split_course_line (courseLineOf raw)).1
  , course_code := (split_course_line (courseLineOf raw)).2
  , course_truncated := has_ellipsis (split_course_line (courseLineOf raw)).1
  , program_line := programLineFinal raw refs rt kt
  , program_truncated := has_ellipsis (programLineRaw raw)
  , degree := (parse_program_fields (programLineFinal raw refs rt kt)).1
  , program := (parse_program_fields (programLineFinal raw refs rt kt)).2.1
  , section_ := (parse_program_fields (programLineFinal raw refs rt kt)).2.2.1
  , session := (parse_program_fields (programLineFinal raw refs rt kt)).2.2.2.1
  , semester := (parse_program_fields (programLineFinal raw refs rt kt)).2.2.2.2
  , teacher_name := teacherNameOf (teacherSplit raw).1
  , teacher_truncated := has_ellipsis (teacherNameOf (teacherSplit raw).1)
  , start_time := (sessionTimes (teacherSplit raw).1).1
  , end_time := (sessionTimes (teacherSplit raw).1).2
  , practical := (teacherSplit raw).2.any isPractical
  , raw_lines := cleanLines raw }

/-- The `parse_cell` function of parser.py. -/
def parse_cell (cell : String) (refs : List String) (rt kt : Bool) :
    List ParsedSession :=
  if (pyStripL cell.data).isEmpty then []
  else
    let lines := cellLines cell
    if lines.isEmpty then []
    else (splitSessions lines).map (fun g => parse_session g refs rt kt)

/-- The column→day mapping loop of `parse_timetable` (lines 84–93): a day
cell is mapped and remembered; a blank later cell inherits the last seen
day. -/
def dayColumnsAux (idx : Nat) (lastDay : Option String) :
    List String → List (Nat × String)
  | [] => []
  | v :: rest =>
    match normalize_day v with
    | some d => (idx, d) :: dayColumnsAux (idx + 1) (some d) rest
    | none =>
      if idx > 0 && v.data.isEmpty then
        match lastDay with
        | some d => (idx, d) :: dayColumnsAux (idx + 1) lastDay rest
        | none => dayColumnsAux (idx + 1) lastDay rest
      else dayColumnsAux (idx + 1) lastDay rest

/-- The `day_columns` mapping built from a header row (cells stripped first, as in
`header = [str(value).strip() ...]`). -/
def day_columns (header : List String) : List (Nat × String) :=
  dayColumnsAux 0 none (header.map (fun s => String.mk (pyStripL s.data)))

def lookupNat (i : Nat) : List (Nat × String) → Option String
  | [] => none
  | (j, d) :: rest => if i = j then some d else lookupNat i rest

/-- The `last_day` value after scanning a list of header cells. -/
def lastAfter (lastDay : Option String) : List String → Option String
  | [] => lastDay
  | v :: rest =>
    match normalize_day v with
    | some d => lastAfter (some d) rest
    | none => lastAfter lastDay rest

/-- The semester-inference identity key `(degree, program, section,
session-years)` of `build_semester_key`; `None` when any part is missing
or empty (Python falsiness). -/
abbrev SemKey := String × String × String × String

def build_semester_key (s : ParsedSession) : Option SemKey :=
  match s.degree, s.program, s.section_, s.session with
  | some d, some p, some sec, some y =>
    if d.data.isEmpty || p.data.isEmpty || sec.data.isEmpty || y.data.isEmpty then
      none
    else
      some (normalize_spacing d, normalize_spacing p, normalize_spacing sec,
        String.mk (removeSpaces y.data))
  | _, _, _, _ => none

def alookup (k : SemKey) : List (SemKey × Nat) → Option Nat
  | [] => none
  | (k0, v) :: rest => if k = k0 then some v else alookup k rest

def optOr (a b : Option Nat) : Option Nat :=
  match a with
  | some v => some v
  | none => b

/-- One step of the first pass of `infer_missing_semesters`: record
`key → semester`; a key seen again with a different value is conflicted. -/
def scanStep (acc : List (SemKey × Nat) × List SemKey) (s : ParsedSession) :
    List (SemKey × Nat) × List SemKey :=
  match build_semester_key s, s.semester with
  | some k, some v =>
    (match alookup k acc.1 with
     | some v0 => if v0 ≠ v then (acc.1, k :: acc.2) else acc
     | none => ((k, v) :: acc.1, acc.2))
  | _, _ => acc

def scanSemesters (l : List ParsedSession) : List (SemKey × Nat) × List SemKey :=
  l.foldl scanStep ([], [])

/-- Second pass of `infer_missing_semesters` on one session: fill a null
semester from the map when the key is computable and unconflicted. -/
def applySem (m : List (SemKey × Nat)) (cf : List SemKey) (s : ParsedSession) :
    ParsedSession :=
  if s.semester ≠ none then s
  else
    match build_semester_key s with
    | none => s
    | some k =>
      if k ∈ cf then s
      else
        match alookup k m with
        | some v => { s with semester := some v }
        | none => s

/-- The nested day → room → sessions structure, in insertion order. -/
abbrev Timetable := List (String × List (String × List ParsedSession))

def flatCat {α : Type} (ls : List (List α)) : List α :=
  ls.foldr (fun a b => a ++ b) []

/-- All sessions of the timetable in iteration order (days, then rooms,
then the room's session list). -/
def sessionsOf (tt : Timetable) : List ParsedSession :=
  flatCat (tt.map (fun dr => flatCat (dr.2.map (fun rs => rs.2))))

/-- The `infer_missing_semesters` pass of parser.py: scan all sessions, then update
each session in place. -/
def infer_missing_semesters (tt : Timetable) : Timetable :=
  tt.map (fun dr => (dr.1, dr.2.map (fun rs =>
    (rs.1, rs.2.map (applySem (scanSemesters (sessionsOf tt)).1
      (scanSemesters (sessionsOf tt)).2)))))

/-- The effect of the inference pass on a single session of `tt`. -/
def inferOne (tt : Timetable) (s : ParsedSession) : ParsedSession :=
  applySem (scanSemesters (sessionsOf tt)).1 (scanSemesters (sessionsOf tt)).2 s

/-- The values with which key `k` is observed (sessions carrying key `k`
and a concrete semester), in order. -/
def obsVals (k : SemKey) (l : List ParsedSession) : List Nat :=
  l.filterMap (fun s =>
    match build_semester_key s with
    | some k2 => if k2 = k then s.semester else none
    | none => none)

/-- The first-pass candidate predicate exactly as claim C4 words it: the
candidate starts with the ellipsis-stripped prefix of the line and contains
the line's session token and (space-compacted) semester token when those
are present — with no requirement that the prefix be nonempty. -/
def claimFirstPass (pl : String) (c : String) : Bool :=
  (match svOf pl with
   | some s => lcontains s c.data
   | none => true) &&
  (match smvOf pl with
   | some m => lcontains m (removeSpaces c.data)
   | none => true) &&
  lstarts (truncStem pl) c.data

/-- The first-pass predicate as the code implements it (the stripped
prefix must additionally be nonempty). -/
def pass1Pred (pfx : List Char) (sv smv : Option (List Char)) (c : String) : Bool :=
  (match sv with
   | some s => lcontains s c.data
   | none => true) &&
  (match smv with
   | some m => lcontains m (removeSpaces c.data)
   | none => true) &&
  (!pfx.isEmpty && lstarts pfx c.data)

/-- The second-pass predicate as the code implements it: applicable only
when the line has a session token. -/
def pass2Pred (sv smv : Option (List Char)) (c : String) : Bool :=
  match sv with
  | some s =>
    lcontains s c.data &&
      (match smv with
       | none => true
       | some m => lcontains m (removeSpaces c.data))
  | none => false

def codeFirstPass (pl : String) (c : String) : Bool :=
  pass1Pred (truncStem pl) (svOf pl) (smvOf pl) c

def codeSecondPass (pl : String) (c : String) : Bool :=
  pass2Pred (svOf pl) (smvOf pl) c

/-- The scenario-B cell text of the spec. -/
def scenarioBCell : String :=
  "BS Computer Science # CS101\nBS Computer Science (Regular 1) 2021-2025 Semester# 3\nDr. Smith (09:00 - 10:30)"

/-- The contribution of the trailing group: 1 when lines remain open after
the last time-range line (or, for an empty list, when the accumulator is
nonempty). -/
def tailTerm (cur : List String) (l : List String) : Nat :=
  match l.getLast? with
  | some x => if hasTime x then 0 else 1
  | none => if cur.isEmpty then 0 else 1

/-- Frame relation of claim C10: the right session equals the left one in
every field except possibly `semester`, and a non-null `semester` is
never changed. -/
def FrameOK (s t : ParsedSession) : Prop :=
  t = { s with semester := t.semester } ∧
  (s.semester ≠ none → t.semester = s.semester)

/-- A keyed session with an explicit semester (scenario-D data). -/
def sessBS3 : ParsedSession :=
  { combined_class := none, course_title := none, course_code := none
  , course_truncated := false, program_line := none, program_truncated := false
  , degree := some "BS", program := some "Computer Science"
  , section_ := some "Regular 1", session := some "2021-2025", semester := some 3
  , teacher_name := none, teacher_truncated := false, start_time := none
  , end_time := none, practical := false, raw_lines := ["x"] }

/-- The same identity with a null semester. -/
def sessBSNull : ParsedSession := { sessBS3 with semester := none, raw_lines := ["y"] }

def ttScenarioD : Timetable := [("Monday", [("R1", [sessBS3, sessBSNull])])]

def keyBS : SemKey := ("BS", "Computer Science", "Regular 1", "2021-2025")

/-- A session with no program fields at all. -/
def plainSession : ParsedSession :=
  { combined_class := none, course_title := none, course_code := none
  , course_truncated := false, program_line := none, program_truncated := false
  , degree := none, program := none, section_ := none, session := none
  , semester := none, teacher_name := none, teacher_truncated := false
  , start_time := none, end_time := none, practical := false, raw_lines := ["z"] }

def ttPlain : Timetable := [("Tuesday", [("R2", [plainSession])])]

/-! ### General lemmas about the string primitives -/

theorem lstarts_iff (p : List Char) : ∀ l, lstarts p l = true ↔ ∃ t, l = p ++ t := by
  induction p with
  | nil => intro l; simp [lstarts]
  | cons x xs ih =>
    intro l
    cases l with
    | nil =>
      simp [lstarts]
    | cons c cs =>
      simp [lstarts, ih, List.cons_eq_cons]
      intro t ht
      exact ⟨fun h => h.symm, fun h => h.symm⟩

theorem lcontains_iff (n : List Char) : ∀ l, lcontains n l = true ↔ ∃ a b, l = a ++ n ++ b := by
  intro l
  induction l with
  | nil =>
    cases n with
    | nil => simp [lcontains]
    | cons x xs => simp [lcontains]
  | cons c cs ih =>
    simp only [lcontains, Bool.or_eq_true, ih, lstarts_iff]
    constructor
    · rintro (⟨t, ht⟩ | ⟨a, b, hab⟩)
      · exact ⟨[], t, by simpa using ht⟩
      · exact ⟨c :: a, b, by simp [hab]⟩
    · rintro ⟨a, b, hab⟩
      cases a with
      | nil =>
        exact Or.inl ⟨b, by simpa using hab⟩
      | cons a0 as =>
        simp only [List.cons_append, List.cons_eq_cons] at hab
        exact Or.inr ⟨as, b, hab.2⟩

theorem lEndsWith_iff (p : List Char) (l : List Char) :
    lEndsWith p l = true ↔ ∃ a, l = a ++ p := by
  unfold lEndsWith
  rw [lstarts_iff]
  constructor
  · rintro ⟨t, ht⟩
    refine ⟨t.reverse, ?_⟩
    have := congrArg List.reverse ht
    simpa using this
  · rintro ⟨a, rfl⟩
    exact ⟨a.reverse, by simp⟩

theorem sessionTimes_isSome (o : Option String) :
    ((sessionTimes o).1).isSome = ((sessionTimes o).2).isSome := by
  cases o with
  | none => rfl
  | some t =>
    by_cases h : t.data.isEmpty
    · simp [sessionTimes, h]
    · cases hts : timeSearch t.data with
      | none => simp [sessionTimes, h, hts]
      | some p => simp [sessionTimes, h, hts]

theorem ppf_gate (pl : Option String) (h : (parse_program_fields pl).1 = none) :
    parse_program_fields pl = (none, none, none, none, none) := by
  cases pl with
  | none => rfl
  | some s =>
    by_cases he : s.data.isEmpty
    · simp [parse_program_fields, he]
    · cases hd : degreeMatchL (programClean s) with
      | none => simp [parse_program_fields, he, hd]
      | some r =>
        exfalso
        cases r with
        | mk deg endPos =>
          simp [parse_program_fields, he, hd] at h

/-! ### Claim theorems: noise filtering, scenario B, truncation detection,
degree gating, time co-presence -/

/-- C1: the spec says a line whose trimmed lowercase text is exactly
"swap" is noise and is discarded before any processing.  The code compares
the stripped lowercase line with the literal `" swap"` (leading space), a
test no stripped string can satisfy, so a "swap" line is kept and the cell
yields a session: the code contradicts the evident intent. -/
theorem c1_swap_not_filtered :
    cellLines "swap" = ["swap"] ∧ cellLines "Swap " = ["Swap"] ∧
    cellLines "was: x" = [] ∧ cellLines "a delete b" = [] ∧
    (parse_cell "swap" [] true false).length = 1 := by
  decide

/-- C2 counterexample: on the scenario-B cell the produced `program` field
is `"Computer Science ("` (the padded parenthesis survives the slice
`remainder[:section_match.start()].strip()`), not `"Computer Science"` as
the claim states. -/
theorem c2_counterexample :
    (parse_cell scenarioBCell [] true false).map (fun s => s.program) ≠
      [some "Computer Science"] ∧
    (parse_cell scenarioBCell [] true false).map (fun s => s.program) =
      [some "Computer Science ("] := by
  decide

/-- C2 (amended): parsing the scenario-B cell yields exactly one session
with course_title "BS Computer Science", course_code "CS101", degree "BS",
program "Computer Science (" (note the trailing parenthesis), section
"Regular 1", session "2021-2025", semester 3, teacher "Dr. Smith",
start 09:00, end 10:30. -/
theorem c2_amended_scenarioB :
    parse_cell scenarioBCell [] true false =
    [{ combined_class := none
     , course_title := some "BS Computer Science"
     , course_code := some "CS101"
     , course_truncated := false
     , program_line := some "BS Computer Science (Regular 1) 2021-2025 Semester# 3"
     , program_truncated := false
     , degree := some "BS"
     , program := some "Computer Science ("
     , section_ := some "Regular 1"
     , session := some "2021-2025"
     , semester := some 3
     , teacher_name := some "Dr. Smith"
     , teacher_truncated := false
     , start_time := some "09:00"
     , end_time := some "10:30"
     , practical := false
     , raw_lines := ["BS Computer Science # CS101",
        "BS Computer Science (Regular 1) 2021-2025 Semester# 3",
        "Dr. Smith (09:00 - 10:30)"] }] := by
  decide

/-- C6 counterexample: `has_ellipsis "…x"` is true although "…x" neither
ends with the ellipsis character nor with "...": the code tests
containment of "…", not a trailing "…". -/
theorem c6_counterexample :
    has_ellipsis (some "…x") = true ∧
    ¬ (∃ a : List Char, "…x".data = a ++ "…".data) ∧
    ¬ (∃ a : List Char, "…x".data = a ++ "...".data) := by
  refine ⟨by decide, ?_, ?_⟩
  · intro h
    have := (lEndsWith_iff "…".data "…x".data).mpr h
    exact absurd this (by decide)
  · intro h
    have := (lEndsWith_iff "...".data "…x".data).mpr h
    exact absurd this (by decide)

/-- C6 (amended): `has_ellipsis s` is true iff `s` contains the ellipsis
character anywhere or ends with the literal "..."; it is false on null and
on the empty string; the claim's examples hold as stated. -/
theorem c6_truncation_detection :
    (∀ s : String, has_ellipsis (some s) = true ↔
      ((∃ a b, s.data = a ++ "…".data ++ b) ∨ ∃ a, s.data = a ++ "...".data)) ∧
    has_ellipsis none = false ∧
    has_ellipsis (some "") = false ∧
    has_ellipsis (some "Foo…") = true ∧
    has_ellipsis (some "Foo...") = true ∧
    has_ellipsis (some "Foo") = false := by
  refine ⟨?_, by decide, by decide, by decide, by decide, by decide⟩
  intro s
  by_cases h : s.data.isEmpty
  · have hnil : s.data = [] := by simpa using h
    simp [has_ellipsis, h, hnil]
  · simp [has_ellipsis, h, lcontains_iff, lEndsWith_iff]

/-- C6 witness: the amended equivalence evaluated at "Foo…". -/
theorem c6_witness :
    (∃ a b, "Foo…".data = a ++ "…".data ++ b) ∨
      ∃ a, "Foo…".data = a ++ "...".data :=
  (c6_truncation_detection.1 "Foo…").mp (by decide)

/-- C7: if the normalized program line does not begin with a recognized
degree token, all five program-derived fields of the produced session are
null together. -/
theorem c7_degree_gating (raw refs : List String) (rt kt : Bool)
    (h : (parse_session raw refs rt kt).degree = none) :
    (parse_session raw refs rt kt).program = none ∧
    (parse_session raw refs rt kt).section_ = none ∧
    (parse_session raw refs rt kt).session = none ∧
    (parse_session raw refs rt kt).semester = none := by
  have hg : parse_program_fields (programLineFinal raw refs rt kt) =
      (none, none, none, none, none) :=
    ppf_gate _ h
  refine ⟨?_, ?_, ?_, ?_⟩
  · show (parse_program_fields (programLineFinal raw refs rt kt)).2.1 = none
    rw [hg]
  · show (parse_program_fields (programLineFinal raw refs rt kt)).2.2.1 = none
    rw [hg]
  · show (parse_program_fields (programLineFinal raw refs rt kt)).2.2.2.1 = none
    rw [hg]
  · show (parse_program_fields (programLineFinal raw refs rt kt)).2.2.2.2 = none
    rw [hg]

/-- C7 witness: a session whose program line "Hello world" carries no
degree token has all five fields null. -/
theorem c7_witness :
    (parse_session ["Math # M1", "Hello world"] [] true false).program = none ∧
    (parse_session ["Math # M1", "Hello world"] [] true false).section_ = none ∧
    (parse_session ["Math # M1", "Hello world"] [] true false).session = none ∧
    (parse_session ["Math # M1", "Hello world"] [] true false).semester = none :=
  c7_degree_gating ["Math # M1", "Hello world"] [] true false (by decide)

/-- C8: in every session produced by `parse_session`, `start_time` is
present iff `end_time` is present (both captures of one `TIME_RE` match on
the teacher line). -/
theorem c8_time_copresence (raw refs : List String) (rt kt : Bool) :
    ((parse_session raw refs rt kt).start_time).isSome =
      ((parse_session raw refs rt kt).end_time).isSome :=
  sessionTimes_isSome ((teacherSplit raw).1)

/-! ### The session splitter (claim C5) -/

theorem flatCat_cons {α : Type} (a : List α) (ls : List (List α)) :
    flatCat (a :: ls) = a ++ flatCat ls := rfl

theorem getLast?_cons_some {α : Type} (y : α) (ys : List α) :
    ∃ z, (y :: ys).getLast? = some z := by
  induction ys generalizing y with
  | nil => exact ⟨y, rfl⟩
  | cons b bs ih => simp [List.getLast?]

theorem tailTerm_cons_cons (cur cur2 : List String) (x y : String) (ys : List String) :
    tailTerm cur (x :: y :: ys) = tailTerm cur2 (y :: ys) := by
  obtain ⟨z, hz⟩ := getLast?_cons_some y ys
  simp [tailTerm, hz]

theorem splitAux_length (l : List String) : ∀ cur,
    (splitSessionsAux cur l).length = l.countP hasTime + tailTerm cur l := by
  induction l with
  | nil =>
    intro cur
    by_cases h : cur.isEmpty <;> simp [splitSessionsAux, tailTerm, h]
  | cons x xs ih =>
    intro cur
    by_cases hx : hasTime x
    · have hterm : tailTerm cur (x :: xs) = tailTerm [] xs := by
        cases xs with
        | nil => simp [tailTerm, hx]
        | cons y ys => exact tailTerm_cons_cons cur [] x y ys
      simp [splitSessionsAux, hx, ih [], hterm, List.countP_cons]
      omega
    · have hterm : tailTerm cur (x :: xs) = tailTerm (x :: cur) xs := by
        cases xs with
        | nil => simp [tailTerm, hx]
        | cons y ys => exact tailTerm_cons_cons cur (x :: cur) x y ys
      simp [splitSessionsAux, hx, ih (x :: cur), hterm, List.countP_cons]

theorem splitAux_flatten (l : List String) : ∀ cur,
    flatCat (splitSessionsAux cur l) = cur.reverse ++ l := by
  induction l with
  | nil =>
    intro cur
    by_cases h : cur.isEmpty
    · have : cur = [] := by simpa using h
      simp [splitSessionsAux, h, this, flatCat]
    · simp [splitSessionsAux, h, flatCat]
  | cons x xs ih =>
    intro cur
    by_cases hx : hasTime x
    · simp only [splitSessionsAux, hx, if_true]
      rw [flatCat_cons, ih []]
      simp
    · simp only [splitSessionsAux, hx, Bool.false_eq_true, if_false]
      rw [ih (x :: cur)]
      simp

theorem mem_dropLast {α : Type} (x : α) : ∀ l : List α, x ∈ l.dropLast → x ∈ l := by
  intro l
  induction l with
  | nil => simp
  | cons a as ih =>
    cases as with
    | nil => simp
    | cons b bs =>
      intro h
      rcases List.mem_cons.mp h with h1 | h2
      · exact List.mem_cons.mpr (Or.inl h1)
      · exact List.mem_cons.mpr (Or.inr (ih h2))

theorem splitAux_groups (l : List String) : ∀ cur,
    (∀ x ∈ cur, hasTime x = false) →
    ∀ g ∈ splitSessionsAux cur l, g ≠ [] ∧ ∀ x ∈ g.dropLast, hasTime x = false := by
  induction l with
  | nil =>
    intro cur hcur g hg
    by_cases h : cur.isEmpty
    · simp [splitSessionsAux, h] at hg
    · simp [splitSessionsAux, h] at hg
      subst hg
      constructor
      · simpa using fun hc => h (by simp [hc])
      · intro x hx
        exact hcur x (by simpa using mem_dropLast x cur.reverse hx)
  | cons y ys ih =>
    intro cur hcur g hg
    by_cases hy : hasTime y
    · simp [splitSessionsAux, hy] at hg
      rcases hg with hg | hg
      · subst hg
        constructor
        · simp
        · intro x hx
          simp at hx
          exact hcur x (by simpa using hx)
      · exact ih [] (by simp) g hg
    · simp only [splitSessionsAux, hy] at hg
      refine ih (y :: cur) ?_ g (by simpa using hg)
      intro x hx
      rcases List.mem_cons.mp hx with h1 | h2
      · simpa [h1] using hy
      · exact hcur x h2

/-- C5: after noise filtering, a cell with no kept lines yields no
sessions; otherwise the kept lines are partitioned in order into groups,
only the last line of a group can match the time-range pattern, and the
number of sessions equals the number of time-range lines plus one if
trailing non-time lines remain. -/
theorem c5_session_splitting (cell : String) (refs : List String) (rt kt : Bool) :
    (cellLines cell = [] → parse_cell cell refs rt kt = []) ∧
    flatCat (splitSessions (cellLines cell)) = cellLines cell ∧
    (∀ g ∈ splitSessions (cellLines cell),
      g ≠ [] ∧ ∀ x ∈ g.dropLast, hasTime x = false) ∧
    (parse_cell cell refs rt kt).length =
      (cellLines cell).countP hasTime + tailTerm [] (cellLines cell) := by
  refine ⟨?_, ?_, ?_, ?_⟩
  · intro h
    unfold parse_cell
    by_cases hs : (pyStripL cell.data).isEmpty
    · simp [hs]
    · simp [hs, h]
  · simpa using splitAux_flatten (cellLines cell) []
  · exact splitAux_groups (cellLines cell) [] (by simp)
  · by_cases hs : (pyStripL cell.data).isEmpty
    · have hnil : pyStripL cell.data = [] := by simpa using hs
      have hc : cellLines cell = [] := by
        unfold cellLines
        rw [hnil]
        rfl
      simp [parse_cell, hs, hc, tailTerm]
    · by_cases hl : (cellLines cell).isEmpty
      · have hc : cellLines cell = [] := by simpa using hl
        simp [parse_cell, hs, hc, tailTerm]
      · have : parse_cell cell refs rt kt =
            (splitSessions (cellLines cell)).map (fun g => parse_session g refs rt kt) := by
          simp [parse_cell, hs, hl]
        rw [this, List.length_map]
        simpa [splitSessions] using splitAux_length (cellLines cell) []

/-- C5 witness: on the cell "A\nB (09:00 - 10:30)\nC" the first produced
group is nonempty and none of its non-final lines is a time line. -/
theorem c5_witness :
    (["A", "B (09:00 - 10:30)"] : List String) ≠ [] ∧
    ∀ x ∈ (["A", "B (09:00 - 10:30)"] : List String).dropLast, hasTime x = false :=
  (c5_session_splitting "A\nB (09:00 - 10:30)\nC" [] true false).2.2.1
    ["A", "B (09:00 - 10:30)"] (by decide)

/-! ### The program-line resolver (claim C4) -/

theorem resolveLoop1_firstMatch (pfx : List Char) (sv smv : Option (List Char)) :
    ∀ pool, resolveLoop1 pfx sv smv pool = firstMatch (pass1Pred pfx sv smv) pool := by
  intro pool
  induction pool with
  | nil => rfl
  | cons c rest ih =>
    cases sv with
    | none =>
      cases smv with
      | none =>
        by_cases hC : (!pfx.isEmpty && lstarts pfx c.data) = true
        · simp [resolveLoop1, firstMatch, pass1Pred, hC]
        · simp [resolveLoop1, firstMatch, pass1Pred, hC, ih]
      | some m =>
        by_cases hm : lcontains m (removeSpaces c.data) = true
        · by_cases hC : (!pfx.isEmpty && lstarts pfx c.data) = true
          · simp [resolveLoop1, firstMatch, pass1Pred, hm, hC]
          · simp [resolveLoop1, firstMatch, pass1Pred, hm, hC, ih]
        · simp [resolveLoop1, firstMatch, pass1Pred, hm, ih]
    | some s =>
      by_cases hs : lcontains s c.data = true
      · cases smv with
        | none =>
          by_cases hC : (!pfx.isEmpty && lstarts pfx c.data) = true
          · simp [resolveLoop1, firstMatch, pass1Pred, hs, hC]
          · simp [resolveLoop1, firstMatch, pass1Pred, hs, hC, ih]
        | some m =>
          by_cases hm : lcontains m (removeSpaces c.data) = true
          · by_cases hC : (!pfx.isEmpty && lstarts pfx c.data) = true
            · simp [resolveLoop1, firstMatch, pass1Pred, hs, hm, hC]
            · simp [resolveLoop1, firstMatch, pass1Pred, hs, hm, hC, ih]
          · simp [resolveLoop1, firstMatch, pass1Pred, hs, hm, ih]
      · simp [resolveLoop1, firstMatch, pass1Pred, hs, ih]

theorem resolveLoop2_firstMatch (sv smv : Option (List Char)) :
    ∀ pool, resolveLoop2 sv smv pool = firstMatch (pass2Pred sv smv) pool := by
  intro pool
  induction pool with
  | nil => rfl
  | cons c rest ih =>
    cases sv with
    | none => simp [resolveLoop2, firstMatch, pass2Pred, ih]
    | some s =>
      cases smv with
      | none =>
        by_cases hs : lcontains s c.data = true
        · simp [resolveLoop2, firstMatch, pass2Pred, hs]
        · simp [resolveLoop2, firstMatch, pass2Pred, hs, ih]
      | some m =>
        by_cases hs : lcontains s c.data = true
        · by_cases hm : lcontains m (removeSpaces c.data) = true
          · simp [resolveLoop2, firstMatch, pass2Pred, hs, hm]
          · simp [resolveLoop2, firstMatch, pass2Pred, hs, hm, ih]
        · simp [resolveLoop2, firstMatch, pass2Pred, hs, ih]

/-- C4 counterexample: for the truncated line "…" (whose ellipsis-stripped
prefix is empty) and pool ["X"], the candidate "X" satisfies the claim's
first-pass predicate verbatim — it starts with the empty prefix and the
line has no session/semester token — so the claim requires "X" to be
returned; the code returns the line unchanged because its first pass also
demands a nonempty prefix. -/
theorem c4_counterexample :
    claimFirstPass "…" "X" = true ∧
    firstMatch (claimFirstPass "…") ["X"] = some "X" ∧
    resolve_program_line "…" ["X"] = "…" ∧
    ("…" : String) ≠ "X" := by
  decide

/-- C4 (amended): `resolve(L, [])` is `L` unchanged, and in general the
resolver returns the first pool candidate satisfying the code's first-pass
predicate (claim predicate plus a nonempty stripped prefix), else the
first candidate satisfying the second-pass predicate (applicable only
when `L` contains a session token), else `L` unchanged. -/
theorem c4_resolution (pl : String) (pool : List String) :
    resolve_program_line pl [] = pl ∧
    resolve_program_line pl pool =
      (firstMatch (codeFirstPass pl) pool).getD
        ((firstMatch (codeSecondPass pl) pool).getD pl) := by
  constructor
  · rfl
  · unfold resolve_program_line codeFirstPass codeSecondPass
    rw [resolveLoop1_firstMatch, resolveLoop2_firstMatch]
    cases h1 : firstMatch (pass1Pred (truncStem pl) (svOf pl) (smvOf pl)) pool with
    | some c => simp [h1]
    | none =>
      cases h2 : firstMatch (pass2Pred (svOf pl) (smvOf pl)) pool with
      | some c => simp [h2]
      | none => simp [h2]

/-! ### Merged day headers (claim C9) -/

theorem dayColumnsAux_blank :
    ∀ (l : List String) (idx : Nat) (lastDay : Option String) (i : Nat) (d : String),
      l[i]? = some "" → 0 < idx + i → lastAfter lastDay (l.take i) = some d →
      lookupNat (idx + i) (dayColumnsAux idx lastDay l) = some d := by
  intro l
  induction l with
  | nil =>
    intro idx lastDay i d h1 h2 h3
    simp at h1
  | cons v rest ih =>
    intro idx lastDay i d h1 h2 h3
    cases i with
    | zero =>
      have hv : v = "" := by simpa using h1
      have hd : lastDay = some d := by simpa [lastAfter] using h3
      subst hv
      subst hd
      have hnd : normalize_day "" = none := by decide
      have hb : ((idx > 0 : Bool) && ("" : String).data.isEmpty) = true := by
        simp
        omega
      have hpos : 0 < idx := by omega
      simp [dayColumnsAux, hnd, hb, hpos, lookupNat]
    | succ i2 =>
      have h1r : rest[i2]? = some "" := by simpa using h1
      have harr : idx + (i2 + 1) = (idx + 1) + i2 := by omega
      cases hnd : normalize_day v with
      | some d0 =>
        have h3r : lastAfter (some d0) (rest.take i2) = some d := by
          simpa [lastAfter, hnd] using h3
        have hne : idx + (i2 + 1) ≠ idx := by omega
        simp only [dayColumnsAux, hnd, lookupNat, if_neg hne]
        rw [harr]
        exact ih (idx + 1) (some d0) i2 d h1r (by omega) h3r
      | none =>
        have h3r : lastAfter lastDay (rest.take i2) = some d := by
          simpa [lastAfter, hnd] using h3
        have hne : idx + (i2 + 1) ≠ idx := by omega
        by_cases hb : ((idx > 0 : Bool) && v.data.isEmpty) = true
        · cases lastDay with
          | some d1 =>
            simp only [dayColumnsAux, hnd, hb, if_pos, lookupNat, if_neg hne]
            rw [harr]
            exact ih (idx + 1) (some d1) i2 d h1r (by omega) h3r
          | none =>
            simp only [dayColumnsAux, hnd, hb, if_pos]
            rw [harr]
            exact ih (idx + 1) none i2 d h1r (by omega) h3r
        · simp only [dayColumnsAux, hnd, hb, if_neg, Bool.false_eq_true, if_false]
          rw [harr]
          exact ih (idx + 1) lastDay i2 d h1r (by omega) h3r

/-- C9: a blank header cell that is not in the first column and is
preceded by a day-naming cell is mapped to the most recently seen day;
concretely the header ["Room","Monday","","Tuesday"] maps column 1 to
Monday, column 2 to Monday and column 3 to Tuesday. -/
theorem c9_merged_day_headers :
    (∀ (header : List String) (i : Nat) (d : String),
      0 < i →
      (header.map (fun s => String.mk (pyStripL s.data)))[i]? = some "" →
      lastAfter none ((header.map (fun s => String.mk (pyStripL s.data))).take i) =
        some d →
      lookupNat i (day_columns header) = some d) ∧
    day_columns ["Room", "Monday", "", "Tuesday"] =
      [(1, "Monday"), (2, "Monday"), (3, "Tuesday")] := by
  constructor
  · intro header i d hi h1 h2
    have := dayColumnsAux_blank (header.map (fun s => String.mk (pyStripL s.data)))
      0 none i d h1 (by omega) h2
    simpa [day_columns] using this
  · decide

/-- C9 witness: in the header ["Room","Monday","","Tuesday"], the blank
cell of column 2 is mapped to Monday by the general statement. -/
theorem c9_witness :
    lookupNat 2 (day_columns ["Room", "Monday", "", "Tuesday"]) = some "Monday" :=
  c9_merged_day_headers.1 ["Room", "Monday", "", "Tuesday"] 2 "Monday" (by decide)
    (by decide) (by decide)

/-! ### Frame property of semester inference (claim C10) -/

theorem forall2_map_self {α : Type} (R : α → α → Prop) (f : α → α) :
    ∀ l : List α, (∀ x ∈ l, R x (f x)) → List.Forall₂ R l (l.map f) := by
  intro l
  induction l with
  | nil => intro _; exact List.Forall₂.nil
  | cons a as ih =>
    intro h
    exact List.Forall₂.cons (h a (List.mem_cons_self a as))
      (ih fun x hx => h x (List.mem_cons_of_mem a hx))

theorem applySem_frame (m : List (SemKey × Nat)) (cf : List SemKey)
    (s : ParsedSession) :
    applySem m cf s = { s with semester := (applySem m cf s).semester } ∧
    (s.semester ≠ none → (applySem m cf s).semester = s.semester) := by
  constructor
  · unfold applySem
    by_cases h : s.semester ≠ none
    · rw [if_pos h]
    · rw [if_neg h]
      cases hk : build_semester_key s with
      | none => rfl
      | some k =>
        dsimp only
        by_cases hc : k ∈ cf
        · rw [if_pos hc]
        · rw [if_neg hc]
          cases hm : alookup k m with
          | none => rfl
          | some v => rfl
  · intro hns
    unfold applySem
    rw [if_pos hns]

/-- C10: the inference pass preserves the day keys, the room keys, the
number and order of sessions, and every session field except `semester`,
which changes only when it was null. -/
theorem c10_frame (tt : Timetable) :
    List.Forall₂ (fun dr dr2 => dr.1 = dr2.1 ∧
      List.Forall₂ (fun rs rs2 => rs.1 = rs2.1 ∧
        List.Forall₂ FrameOK rs.2 rs2.2) dr.2 dr2.2)
      tt (infer_missing_semesters tt) := by
  unfold infer_missing_semesters
  apply forall2_map_self
  intro dr _
  refine ⟨rfl, ?_⟩
  apply forall2_map_self
  intro rs _
  refine ⟨rfl, ?_⟩
  apply forall2_map_self
  intro s _
  exact applySem_frame _ _ s

/-- C10 witness: the frame relation evaluated on a one-session table. -/
theorem c10_witness :
    List.Forall₂ (fun dr dr2 => dr.1 = dr2.1 ∧
      List.Forall₂ (fun rs rs2 => rs.1 = rs2.1 ∧
        List.Forall₂ FrameOK rs.2 rs2.2) dr.2 dr2.2)
      ttPlain (infer_missing_semesters ttPlain) :=
  c10_frame ttPlain

/-! ### Semester inference (claim C3) -/

theorem optOr_none_right (a : Option Nat) : optOr a none = a := by
  cases a <;> rfl

theorem scan_char (l : List ParsedSession) :
    ∀ (m : List (SemKey × Nat)) (cf : List SemKey) (k : SemKey),
      alookup k ((l.foldl scanStep (m, cf)).1) =
        optOr (alookup k m) ((obsVals k l).head?) ∧
      (k ∈ (l.foldl scanStep (m, cf)).2 ↔ k ∈ cf ∨
        ∃ v ∈ obsVals k l,
          optOr (alookup k m) ((obsVals k l).head?) ≠ some v) := by
  induction l with
  | nil =>
    intro m cf k
    constructor
    · simp [obsVals, optOr_none_right]
    · simp [obsVals]
  | cons s rest ih =>
    intro m cf k
    rw [List.foldl_cons]
    cases hk : build_semester_key s with
    | none =>
      have hstep : scanStep (m, cf) s = (m, cf) := by simp [scanStep, hk]
      have hobs : obsVals k (s :: rest) = obsVals k rest := by
        simp [obsVals, hk]
      rw [hstep, hobs]
      exact ih m cf k
    | some k0 =>
      cases hv : s.semester with
      | none =>
        have hstep : scanStep (m, cf) s = (m, cf) := by simp [scanStep, hk, hv]
        have hobs : obsVals k (s :: rest) = obsVals k rest := by
          simp [obsVals, hk, hv]
        rw [hstep, hobs]
        exact ih m cf k
      | some v0 =>
        by_cases hkk : k0 = k
        · subst hkk
          have hobs : obsVals k0 (s :: rest) = v0 :: obsVals k0 rest := by
            simp [obsVals, hk, hv]
          rw [hobs]
          cases hbase : alookup k0 m with
          | none =>
            have hstep : scanStep (m, cf) s = ((k0, v0) :: m, cf) := by
              simp [scanStep, hk, hv, hbase]
            rw [hstep]
            obtain ⟨ihL, ihC⟩ := ih ((k0, v0) :: m) cf k0
            have hlook : alookup k0 ((k0, v0) :: m) = some v0 := by
              simp [alookup]
            constructor
            · rw [ihL, hlook]
              simp [optOr, hbase]
            · rw [ihC, hlook]
              simp [optOr, hbase]
          | some w =>
            by_cases hw : w = v0
            · subst hw
              have hstep : scanStep (m, cf) s = (m, cf) := by
                simp [scanStep, hk, hv, hbase]
              rw [hstep]
              obtain ⟨ihL, ihC⟩ := ih m cf k0
              constructor
              · rw [ihL, hbase]
                simp [optOr]
              · rw [ihC, hbase]
                simp [optOr]
            · have hstep : scanStep (m, cf) s = (m, k0 :: cf) := by
                simp [scanStep, hk, hv, hbase, hw]
              rw [hstep]
              obtain ⟨ihL, ihC⟩ := ih m (k0 :: cf) k0
              constructor
              · rw [ihL, hbase]
                simp [optOr]
              · rw [ihC, hbase]
                simp only [optOr, List.head?]
                have hL : k0 ∈ k0 :: cf ∨
                    ∃ v ∈ obsVals k0 rest, (some w : Option Nat) ≠ some v :=
                  Or.inl (List.mem_cons_self k0 cf)
                have hR : k0 ∈ cf ∨
                    ∃ v ∈ v0 :: obsVals k0 rest, (some w : Option Nat) ≠ some v :=
                  Or.inr ⟨v0, List.mem_cons_self v0 _, by simp [hw]⟩
                exact iff_of_true hL hR
        · have hobs : obsVals k (s :: rest) = obsVals k rest := by
            simp [obsVals, hk, hv, hkk]
          rw [hobs]
          cases hbase : alookup k0 m with
          | none =>
            have hstep : scanStep (m, cf) s = ((k0, v0) :: m, cf) := by
              simp [scanStep, hk, hv, hbase]
            rw [hstep]
            obtain ⟨ihL, ihC⟩ := ih ((k0, v0) :: m) cf k
            have hlk : alookup k ((k0, v0) :: m) = alookup k m := by
              have hne : k ≠ k0 := fun h => hkk h.symm
              simp [alookup, hne]
            constructor
            · rw [ihL, hlk]
            · rw [ihC, hlk]
          | some w =>
            by_cases hw : w = v0
            · have hstep : scanStep (m, cf) s = (m, cf) := by
                simp [scanStep, hk, hv, hbase, hw]
              rw [hstep]
              exact ih m cf k
            · have hstep : scanStep (m, cf) s = (m, k0 :: cf) := by
                simp [scanStep, hk, hv, hbase, hw]
              rw [hstep]
              obtain ⟨ihL, ihC⟩ := ih m (k0 :: cf) k
              constructor
              · exact ihL
              · rw [ihC]
                have hmem : (k ∈ k0 :: cf) ↔ k ∈ cf := by
                  have hne : k ≠ k0 := fun h => hkk h.symm
                  simp [List.mem_cons, hne]
                rw [hmem]

theorem mem_obsVals (k : SemKey) (v : Nat) (l : List ParsedSession) :
    v ∈ obsVals k l ↔
      ∃ t, t ∈ l ∧ build_semester_key t = some k ∧ t.semester = some v := by
  unfold obsVals
  rw [List.mem_filterMap]
  constructor
  · rintro ⟨t, ht, hf⟩
    refine ⟨t, ht, ?_⟩
    cases hb : build_semester_key t with
    | none => rw [hb] at hf; simp at hf
    | some k2 =>
      rw [hb] at hf
      by_cases h2 : k2 = k
      · simp [h2] at hf
        exact ⟨by rw [h2], hf⟩
      · simp [h2] at hf
  · rintro ⟨t, ht, hb, hs⟩
    exact ⟨t, ht, by simp [hb, hs]⟩

theorem scan_fill (l : List ParsedSession) (k : SemKey) (v : Nat)
    (h1 : alookup k (scanSemesters l).1 = some v)
    (h2 : k ∉ (scanSemesters l).2) :
    v ∈ obsVals k l ∧ ∀ w ∈ obsVals k l, w = v := by
  obtain ⟨hcL, hcC⟩ := scan_char l [] [] k
  unfold scanSemesters at h1 h2
  rw [hcL] at h1
  simp only [alookup, optOr] at h1
  constructor
  · cases hobs : obsVals k l with
    | nil => rw [hobs] at h1; simp at h1
    | cons a rest =>
      rw [hobs] at h1
      simp at h1
      rw [h1]
      exact List.mem_cons_self v rest
  · intro w hw
    by_contra hne
    apply h2
    rw [hcC]
    refine Or.inr ⟨w, hw, ?_⟩
    simp only [alookup, optOr, h1]
    intro heq
    exact hne (Option.some.inj heq).symm

theorem applySem_fill (m : List (SemKey × Nat)) (cf : List SemKey)
    (s : ParsedSession) (k : SemKey) (v : Nat)
    (hsem : s.semester = none) (hk : build_semester_key s = some k)
    (hout : (applySem m cf s).semester = some v) :
    k ∉ cf ∧ alookup k m = some v := by
  unfold applySem at hout
  rw [if_neg (by simp [hsem])] at hout
  rw [hk] at hout
  dsimp only at hout
  by_cases hc : k ∈ cf
  · rw [if_pos hc] at hout
    rw [hsem] at hout
    simp at hout
  · rw [if_neg hc] at hout
    cases hm : alookup k m with
    | none =>
      rw [hm] at hout
      rw [hsem] at hout
      simp at hout
    | some w =>
      rw [hm] at hout
      simp at hout
      exact ⟨hc, by rw [hout]⟩

theorem flatCat_map {α : Type} (f : α → α) :
    ∀ ls : List (List α), flatCat (ls.map (fun l => l.map f)) = (flatCat ls).map f := by
  intro ls
  induction ls with
  | nil => rfl
  | cons a rest ih => simp [flatCat_cons, ih]

theorem sessionsOf_mapStruct (f : ParsedSession → ParsedSession) (tt : Timetable) :
    sessionsOf (tt.map (fun dr => (dr.1, dr.2.map (fun rs => (rs.1, rs.2.map f))))) =
      (sessionsOf tt).map f := by
  unfold sessionsOf
  rw [List.map_map]
  have hfun : ((fun dr : String × List (String × List ParsedSession) =>
      flatCat (dr.2.map (fun rs => rs.2))) ∘
        (fun dr : String × List (String × List ParsedSession) =>
          (dr.1, dr.2.map (fun rs => (rs.1, rs.2.map f))))) =
      fun dr : String × List (String × List ParsedSession) =>
        (flatCat (dr.2.map (fun rs => rs.2))).map f := by
    funext dr
    show flatCat ((dr.2.map (fun rs => (rs.1, rs.2.map f))).map (fun rs => rs.2)) =
      (flatCat (dr.2.map (fun rs => rs.2))).map f
    rw [List.map_map, ← flatCat_map, List.map_map]
    rfl
  rw [hfun]
  rw [show (fun dr : String × List (String × List ParsedSession) =>
      (flatCat (dr.2.map (fun rs => rs.2))).map f) =
      ((fun l : List ParsedSession => l.map f) ∘
        (fun dr : String × List (String × List ParsedSession) =>
          flatCat (dr.2.map (fun rs => rs.2)))) from rfl]
  rw [← List.map_map, flatCat_map]

/-- C3: the inference pass maps every session through `inferOne`; it never
changes a non-null semester; and a null semester with computable key is
filled with `v` only when some session in the dataset carries that key
with semester `v` and every session carrying that key with a concrete
semester agrees on `v` — so a key observed with two different values is
never filled, independently of visit order. -/
theorem c3_semester_inference (tt : Timetable) :
    sessionsOf (infer_missing_semesters tt) = (sessionsOf tt).map (inferOne tt) ∧
    (∀ (s : ParsedSession) (v : Nat), s.semester = some v →
      (inferOne tt s).semester = some v) ∧
    (∀ (s : ParsedSession) (k : SemKey) (v : Nat),
      s.semester = none → build_semester_key s = some k →
      (inferOne tt s).semester = some v →
      (∃ t, t ∈ sessionsOf tt ∧ build_semester_key t = some k ∧
        t.semester = some v) ∧
      (∀ t, t ∈ sessionsOf tt → build_semester_key t = some k →
        ∀ w, t.semester = some w → w = v)) := by
  refine ⟨?_, ?_, ?_⟩
  · exact sessionsOf_mapStruct _ tt
  · intro s v hv
    have h := (applySem_frame (scanSemesters (sessionsOf tt)).1
      (scanSemesters (sessionsOf tt)).2 s).2 (by simp [hv])
    exact h.trans hv
  · intro s k v hnull hkey hout
    have hfill := applySem_fill _ _ s k v hnull hkey hout
    have hscan := scan_fill (sessionsOf tt) k v hfill.2 hfill.1
    constructor
    · exact (mem_obsVals k v (sessionsOf tt)).mp hscan.1
    · intro t ht htk w hw
      exact hscan.2 w ((mem_obsVals k w (sessionsOf tt)).mpr ⟨t, ht, htk, hw⟩)

/-- C3 witness: in the scenario-D table the session with a null semester
and key (BS, Computer Science, Regular 1, 2021-2025) is filled with 3,
and the theorem yields the observing session. -/
theorem c3_witness :
    ∃ t, t ∈ sessionsOf ttScenarioD ∧ build_semester_key t = some keyBS ∧
      t.semester = some 3 :=
  ((c3_semester_inference ttScenarioD).2.2 sessBSNull keyBS 3 rfl (by decide)
    (by decide)).1
